import Mathlib

/- Shallow embedding of the session subsystem of golibry/go-http.

   The Go package stores per-user session state (`SessionData`) as a JSON
   blob in a pluggable `Storage` backend, optionally wrapped in AES-GCM.
   This file models:
   * Go dynamic values held in session attributes and flash queues
     (`interface{}`) as the inductive `GoVal`;
   * JSON documents produced by `encoding/json` as the inductive `JVal`
     (a JSON string in RFC3339 form produced by marshalling a `time.Time`
     is abstracted as the constructor `JVal.jtime` carrying the instant);
   * `json.Marshal` / `json.Unmarshal` at type `SessionData` as
     `SessionData.marshal` / `SessionData.unmarshal`;
   * the session record `sessionImpl` and its methods, in state-passing
     style (each method returns its result together with the record after
     the call); storage calls are modelled by passing in the backend's
     response and reporting the performed call in the outcome;
   * `ManagerImpl.GetSession` / `NewSession`, with AES-GCM abstracted as
     encrypt/decrypt oracles (`none` = the cipher operation failed);
   * the in-memory storage backend `MemoryStorage`.
   Instants and durations are integers (nanoseconds); `time.Now()` is an
   explicit `now` argument. -/

mutual
/-- Go dynamic values (`interface{}`) that can live in session attributes
and flash queues: JSON-serializable scalars, slices and string-keyed maps.
`gInt` and `gFloat` are kept distinct because `encoding/json` decodes every
JSON number into `float64` when the target type is `interface{}`. -/
inductive GoVal : Type where
  | gNull : GoVal
  | gBool (b : Bool) : GoVal
  | gInt (n : Int) : GoVal
  | gFloat (q : ℚ) : GoVal
  | gStr (s : String) : GoVal
  | gArr (xs : GoList) : GoVal
  | gMap (kvs : GoMap) : GoVal
inductive GoList : Type where
  | nil : GoList
  | cons (v : GoVal) (tl : GoList) : GoList
inductive GoMap : Type where
  | nil : GoMap
  | cons (k : String) (v : GoVal) (tl : GoMap) : GoMap
end

deriving instance DecidableEq for GoVal, GoList, GoMap

mutual
/-- JSON documents as produced and consumed by `encoding/json`.
`jtime t` stands for the RFC3339(Nano) string that `time.Time` marshals to;
it carries the encoded instant (as integer nanoseconds). -/
inductive JVal : Type where
  | jnull : JVal
  | jbool (b : Bool) : JVal
  | jnum (q : ℚ) : JVal
  | jstr (s : String) : JVal
  | jtime (t : Int) : JVal
  | jarr (xs : JList) : JVal
  | jobj (kvs : JObj) : JVal
inductive JList : Type where
  | nil : JList
  | cons (v : JVal) (tl : JList) : JList
inductive JObj : Type where
  | nil : JObj
  | cons (k : String) (v : JVal) (tl : JObj) : JObj
end

deriving instance DecidableEq for JVal, JList, JObj

/-- Field lookup in a JSON object, as `json.Unmarshal` applies it: when a
key occurs more than once the last occurrence wins. -/
def JObj.lookupLast : JObj → String → Option JVal
  | .nil, _ => none
  | .cons k v tl, key =>
      match JObj.lookupLast tl key with
      | some r => some r
      | none => if k = key then some v else none

mutual
/-- Effect of `json.Marshal` on a dynamic Go value. -/
def serializeGo : GoVal → JVal
  | .gNull => .jnull
  | .gBool b => .jbool b
  | .gInt n => .jnum (n : ℚ)
  | .gFloat q => .jnum q
  | .gStr s => .jstr s
  | .gArr xs => .jarr (serializeGoList xs)
  | .gMap kvs => .jobj (serializeGoMap kvs)
def serializeGoList : GoList → JList
  | .nil => .nil
  | .cons v tl => .cons (serializeGo v) (serializeGoList tl)
def serializeGoMap : GoMap → JObj
  | .nil => .nil
  | .cons k v tl => .cons k (serializeGo v) (serializeGoMap tl)
end

mutual
/-- Effect of `json.Unmarshal` when decoding a JSON value into a Go
`interface{}`: numbers become `float64`, objects become
`map[string]interface{}`, arrays become `[]interface{}`. -/
def deserializeGo : JVal → GoVal
  | .jnull => .gNull
  | .jbool b => .gBool b
  | .jnum q => .gFloat q
  | .jstr s => .gStr s
  | .jtime t => .gStr (toString t)
  | .jarr xs => .gArr (deserializeGoList xs)
  | .jobj kvs => .gMap (deserializeGoMap kvs)
def deserializeGoList : JList → GoList
  | .nil => .nil
  | .cons v tl => .cons (deserializeGo v) (deserializeGoList tl)
def deserializeGoMap : JObj → GoMap
  | .nil => .nil
  | .cons k v tl => .cons k (deserializeGo v) (deserializeGoMap tl)
end

mutual
/-- The JSON-decoded normal form of a Go value: every integer is replaced
by the `float64` that a marshal/unmarshal round trip through
`interface{}` turns it into. -/
def normalizeGo : GoVal → GoVal
  | .gNull => .gNull
  | .gBool b => .gBool b
  | .gInt n => .gFloat (n : ℚ)
  | .gFloat q => .gFloat q
  | .gStr s => .gStr s
  | .gArr xs => .gArr (normalizeGoList xs)
  | .gMap kvs => .gMap (normalizeGoMap kvs)
def normalizeGoList : GoList → GoList
  | .nil => .nil
  | .cons v tl => .cons (normalizeGo v) (normalizeGoList tl)
def normalizeGoMap : GoMap → GoMap
  | .nil => .nil
  | .cons k v tl => .cons k (normalizeGo v) (normalizeGoMap tl)
end

/-- Association-list lookup, modelling read access `m[k]` to a Go
string-keyed map (lists here always carry pairwise distinct keys). -/
def alookup {α : Type} : List (String × α) → String → Option α
  | [], _ => none
  | (k, v) :: tl, key => if k = key then some v else alookup tl key

/-- Association-list update, modelling Go map assignment `m[k] = v`
(overwrite in place, new keys appended). -/
def upsert {α : Type} : List (String × α) → String → α → List (String × α)
  | [], key, v => [(key, v)]
  | (k, w) :: tl, key, v =>
      if k = key then (key, v) :: tl else (k, w) :: upsert tl key v

/-- Association-list removal, modelling Go `delete(m, k)`. -/
def aerase {α : Type} : List (String × α) → String → List (String × α)
  | [], _ => []
  | (k, w) :: tl, key =>
      if k = key then aerase tl key else (k, w) :: aerase tl key

/-- Conversion of a Go slice of dynamic values to JSON (`json.Marshal` on
`[]interface{}`). -/
def serializeVals : List GoVal → JList
  | [] => .nil
  | v :: tl => .cons (serializeGo v) (serializeVals tl)

/-- Decoding of a JSON array into a Go `[]interface{}`. -/
def decodeVals : JList → List GoVal
  | .nil => []
  | .cons v tl => deserializeGo v :: decodeVals tl

/-- Conversion of a Go `map[string]interface{}` (as an association list) to
a JSON object. -/
def goAttrsToJson : List (String × GoVal) → JObj
  | [] => .nil
  | (k, v) :: tl => .cons k (serializeGo v) (goAttrsToJson tl)

/-- Decoding of a JSON object into a Go `map[string]interface{}`. -/
def jsonToGoAttrs : JObj → List (String × GoVal)
  | .nil => []
  | .cons k v tl => (k, deserializeGo v) :: jsonToGoAttrs tl

/-- Conversion of a Go `map[string][]interface{}` to a JSON object. -/
def goFlashToJson : List (String × List GoVal) → JObj
  | [] => .nil
  | (k, xs) :: tl => .cons k (.jarr (serializeVals xs)) (goFlashToJson tl)

/-- Decoding of one JSON object value into a Go `[]interface{}`: it must be
an array (or `null`, which leaves the nil slice); anything else is an
`encoding/json` type error. -/
def decodeFlashVal : JVal → Option (List GoVal)
  | .jarr xs => some (decodeVals xs)
  | .jnull => some []
  | _ => none

/-- Decoding of a JSON object into a Go `map[string][]interface{}`; fails
if any value is not an array. -/
def jsonToGoFlash : JObj → Option (List (String × List GoVal))
  | .nil => some []
  | .cons k v tl => do
      let xs ← decodeFlashVal v
      let rest ← jsonToGoFlash tl
      some ((k, xs) :: rest)

/-- The session payload persisted to storage: Go struct `SessionData` with
its five JSON-tagged fields. Go distinguishes nil maps from empty maps
(nil marshals to `null` and a missing or null field unmarshals to nil), so
the two map fields are `Option`s. Timestamps are integer nanosecond
instants. -/
structure SessionData where
  ID : String
  Attributes : Option (List (String × GoVal))
  FlashData : Option (List (String × List GoVal))
  CreatedAt : Int
  LastAccess : Int
deriving DecidableEq

/-- JSON form of the `Attributes` field (`map[string]interface{}`): a nil
map marshals to `null`. -/
def attrsJson : Option (List (String × GoVal)) → JVal
  | none => .jnull
  | some kvs => .jobj (goAttrsToJson kvs)

/-- JSON form of the `FlashData` field (`map[string][]interface{}`). -/
def flashJson : Option (List (String × List GoVal)) → JVal
  | none => .jnull
  | some fd => .jobj (goFlashToJson fd)

/-- Effect of `json.Marshal(s.data)`: an object with the five tagged fields
in struct declaration order. -/
def SessionData.marshal (d : SessionData) : JVal :=
  .jobj (.cons "id" (.jstr d.ID)
    (.cons "attributes" (attrsJson d.Attributes)
      (.cons "flash_data" (flashJson d.FlashData)
        (.cons "created_at" (.jtime d.CreatedAt)
          (.cons "last_access" (.jtime d.LastAccess) .nil)))))

/-- Decoding of a JSON object field into a Go `string` field: a missing
field or `null` leaves the zero value `""`; a non-string value is a type
error. -/
def decodeStringField : Option JVal → Option String
  | none => some ""
  | some .jnull => some ""
  | some (.jstr s) => some s
  | some _ => none

/-- Decoding of a JSON object field into a Go `time.Time` field: the value
must be an RFC3339 string (modelled by `jtime`); a missing field or `null`
leaves the zero instant. -/
def decodeTimeField : Option JVal → Option Int
  | none => some 0
  | some .jnull => some 0
  | some (.jtime t) => some t
  | some _ => none

/-- Decoding of a JSON object field into `map[string]interface{}`: missing
or `null` leaves the nil map; a non-object value is a type error. -/
def decodeAttrsField : Option JVal → Option (Option (List (String × GoVal)))
  | none => some none
  | some .jnull => some none
  | some (.jobj kvs) => some (some (jsonToGoAttrs kvs))
  | some _ => none

/-- Decoding of a JSON object field into `map[string][]interface{}`. -/
def decodeFlashField : Option JVal → Option (Option (List (String × List GoVal)))
  | none => some none
  | some .jnull => some none
  | some (.jobj kvs) => (jsonToGoFlash kvs).map some
  | some _ => none

/-- Effect of `json.Unmarshal(data, &sessionData)`: the document must be an
object (or `null`, which leaves the zero struct); each field is decoded by
type, missing fields keep their zero values, unknown fields are ignored. -/
def SessionData.unmarshal : JVal → Option SessionData
  | .jnull => some ⟨"", none, none, 0, 0⟩
  | .jobj kvs => do
      let id ← decodeStringField (kvs.lookupLast "id")
      let attrs ← decodeAttrsField (kvs.lookupLast "attributes")
      let flash ← decodeFlashField (kvs.lookupLast "flash_data")
      let createdAt ← decodeTimeField (kvs.lookupLast "created_at")
      let lastAccess ← decodeTimeField (kvs.lookupLast "last_access")
      some ⟨id, attrs, flash, createdAt, lastAccess⟩
  | _ => none

/-- JSON-decoded normal form of an attribute map. -/
def normalizeAttrs (kvs : List (String × GoVal)) : List (String × GoVal) :=
  kvs.map (fun kv => (kv.1, normalizeGo kv.2))

/-- JSON-decoded normal form of a flash map. -/
def normalizeFlash (fd : List (String × List GoVal)) : List (String × List GoVal) :=
  fd.map (fun kv => (kv.1, kv.2.map normalizeGo))

/-- JSON-decoded normal form of a session payload: every attribute and
flash value is replaced by what a marshal/unmarshal round trip through
`interface{}` makes of it. -/
def SessionData.normalize (d : SessionData) : SessionData :=
  { d with
    Attributes := d.Attributes.map normalizeAttrs
    FlashData := d.FlashData.map normalizeFlash }

/-- Go `error` values that flow through the session package: the four
sentinel errors declared in the package, arbitrary backend errors, and
`fmt.Errorf("<context>: %w", cause)` wrapping. -/
inductive GoError : Type where
  | errSessionNotFound : GoError
  | errInvalidSession : GoError
  | errEncryptionFailed : GoError
  | errDecryptionFailed : GoError
  | backend (msg : String) : GoError
  | wrapped (context : String) (cause : GoError) : GoError
deriving DecidableEq

/-- A byte slice held in storage: either the `json.Marshal` encoding of a
JSON document (`plain`), or opaque bytes such as AES-GCM ciphertext or
corrupted data (`raw`), which do not parse as a session payload. -/
inductive Blob : Type where
  | plain (j : JVal) : Blob
  | raw (bs : List Nat) : Blob
deriving DecidableEq

/-- `json.Unmarshal` of a stored byte slice into a `SessionData`. -/
def Blob.unmarshalSD : Blob → Option SessionData
  | .plain j => SessionData.unmarshal j
  | .raw _ => none

/-- The configuration fields of `Options` read by the verified operations;
cookie metadata fields only shape the emitted `http.Cookie` and are
omitted. Durations are integer nanoseconds; `EncryptionKey` is a byte
slice, encryption being enabled exactly when it is non-empty. -/
structure Options where
  MaxAge : Int
  IdleTimeout : Int
  EncryptionKey : List Nat
deriving DecidableEq

/-- The session manager: its configuration plus the AES-GCM seal/open
primitives abstracted as oracles (`encryptOracle` fixes the random nonce
draw of one `encrypt` call; `none` means the cipher operation failed, for
example a bad key size, an undersized ciphertext, or an authentication
failure). -/
structure ManagerImpl where
  options : Options
  encryptOracle : Blob → Option Blob
  decryptOracle : Blob → Option Blob

/-- `ManagerImpl.encrypt`: the identity when no key is configured,
otherwise the AES-GCM seal. -/
def ManagerImpl.encrypt (m : ManagerImpl) (data : Blob) : Option Blob :=
  if m.options.EncryptionKey.length = 0 then some data else m.encryptOracle data

/-- `ManagerImpl.decrypt`: the identity when no key is configured,
otherwise the AES-GCM open. -/
def ManagerImpl.decrypt (m : ManagerImpl) (data : Blob) : Option Blob :=
  if m.options.EncryptionKey.length = 0 then some data else m.decryptOracle data

/-- The in-memory session record `sessionImpl`: the payload plus the dirty
flag. The `storage` and `manager` pointers of the Go struct are the
ambient parameters of the operations below, and the mutex disappears in
this sequential model. -/
structure sessionImpl where
  data : SessionData
  dirty : Bool
deriving DecidableEq

/-- `sessionImpl.ID`, in state-passing style: the result together with the
record as it stands after the call. -/
def sessionImpl.ID (s : sessionImpl) : String × sessionImpl :=
  (s.data.ID, s)

/-- `sessionImpl.Get`: reads `s.data.Attributes[key]`; a lookup in a nil
map yields the zero value and `false`. -/
def sessionImpl.Get (s : sessionImpl) (key : String) : (GoVal × Bool) × sessionImpl :=
  match s.data.Attributes with
  | none => ((.gNull, false), s)
  | some kvs =>
      match alookup kvs key with
      | some v => ((v, true), s)
      | none => ((.gNull, false), s)

/-- `sessionImpl.Set`: `s.data.Attributes[key] = value; s.dirty = true`.
Assignment to a nil Go map panics at runtime, modelled as `none`. -/
def sessionImpl.Set (s : sessionImpl) (key : String) (value : GoVal) :
    Option sessionImpl :=
  match s.data.Attributes with
  | none => none
  | some kvs =>
      some ⟨{ s.data with Attributes := some (upsert kvs key value) }, true⟩

/-- `sessionImpl.Delete`: `delete(s.data.Attributes, key); s.dirty = true`
(deleting from a nil map is a no-op, the dirty flag is set regardless). -/
def sessionImpl.Delete (s : sessionImpl) (key : String) : sessionImpl :=
  ⟨{ s.data with Attributes := s.data.Attributes.map (fun kvs => aerase kvs key) },
    true⟩

/-- `sessionImpl.Clear`: replaces the attribute map with a fresh empty map
and sets the dirty flag. -/
def sessionImpl.Clear (s : sessionImpl) : sessionImpl :=
  ⟨{ s.data with Attributes := some [] }, true⟩

/-- Category normalization shared by `AddFlash` and `GetFlashes`:
`cat := "default"; if len(category) > 0 && category[0] != "" { cat = category[0] }`. -/
def normCat (category : List String) : String :=
  match category with
  | [] => "default"
  | c :: _ => if c = "" then "default" else c

/-- `sessionImpl.AddFlash`: allocates the flash map if nil, appends the
message to the category's queue and sets the dirty flag. -/
def sessionImpl.AddFlash (s : sessionImpl) (message : GoVal)
    (category : List String) : sessionImpl :=
  let cat := normCat category
  let fd := s.data.FlashData.getD []
  let queue := (alookup fd cat).getD []
  ⟨{ s.data with FlashData := some (upsert fd cat (queue ++ [message])) }, true⟩

/-- `sessionImpl.GetFlashes`: if the flash map is nil, returns nil without
touching the record; otherwise returns the category's queue, deletes the
category and sets the dirty flag. -/
def sessionImpl.GetFlashes (s : sessionImpl) (category : List String) :
    List GoVal × sessionImpl :=
  let cat := normCat category
  match s.data.FlashData with
  | none => ([], s)
  | some fd =>
      ((alookup fd cat).getD [],
        ⟨{ s.data with FlashData := some (aerase fd cat) }, true⟩)

/-- `sessionImpl.Touch`: `s.data.LastAccess = time.Now(); s.dirty = true`. -/
def sessionImpl.Touch (s : sessionImpl) (now : Int) : sessionImpl :=
  ⟨{ s.data with LastAccess := now }, true⟩

/-- `sessionImpl.LastAccess`, in state-passing style. -/
def sessionImpl.LastAccess (s : sessionImpl) : Int × sessionImpl :=
  (s.data.LastAccess, s)

/-- `sessionImpl.CreatedAt`, in state-passing style. -/
def sessionImpl.CreatedAt (s : sessionImpl) : Int × sessionImpl :=
  (s.data.CreatedAt, s)

/-- `sessionImpl.IsExpired`: `time.Since(s.data.CreatedAt) > maxAge`. -/
def sessionImpl.IsExpired (s : sessionImpl) (now maxAge : Int) :
    Bool × sessionImpl :=
  (decide (now - s.data.CreatedAt > maxAge), s)

/-- `sessionImpl.isIdleExpired`: `time.Since(s.data.LastAccess) > idleTimeout`. -/
def sessionImpl.isIdleExpired (s : sessionImpl) (now idleTimeout : Int) :
    Bool × sessionImpl :=
  (decide (now - s.data.LastAccess > idleTimeout), s)

/-- Outcome of `sessionImpl.Save`: the returned error (`none` = nil), the
record after the call, and the `Storage.Set` invocation made, if any, as
the triple (key, data, ttl). -/
structure SaveOutcome where
  err : Option GoError
  record : sessionImpl
  setCall : Option (String × Blob × Int)
deriving DecidableEq

/-- The encrypt-if-enabled step of `Save`:
`if len(EncryptionKey) > 0 { data, err = encrypt(data); if err != nil { return ErrEncryptionFailed } }`. -/
def ManagerImpl.encryptStep (m : ManagerImpl) (data : Blob) : Except GoError Blob :=
  if m.options.EncryptionKey.length > 0 then
    match m.encrypt data with
    | some d => .ok d
    | none => .error .errEncryptionFailed
  else .ok data

/-- `sessionImpl.Save`: returns nil unchanged when not dirty; otherwise
marshals the payload, encrypts it when a key is configured, and calls
`Storage.Set(s.data.ID, data, MaxAge)` — `setResult` is that call's
return value (`none` = nil). On success the dirty flag is cleared; on
storage failure the wrapped error is returned and the record is left as
it was. -/
def sessionImpl.Save (s : sessionImpl) (m : ManagerImpl)
    (setResult : Option GoError) : SaveOutcome :=
  if s.dirty = false then ⟨none, s, none⟩
  else
    let data := Blob.plain s.data.marshal
    match m.encryptStep data with
    | .error e => ⟨some e, s, none⟩
    | .ok data2 =>
        match setResult with
        | some e =>
            ⟨some (.wrapped "failed to save session" e), s,
              some (s.data.ID, data2, m.options.MaxAge)⟩
        | none =>
            ⟨none, { s with dirty := false },
              some (s.data.ID, data2, m.options.MaxAge)⟩

/-- Outcome of `sessionImpl.Destroy`: the returned error, the record after
the call, and the key passed to the unconditional `Storage.Delete` call. -/
structure DestroyOutcome where
  err : Option GoError
  record : sessionImpl
  deleteCall : Option String
deriving DecidableEq

/-- `sessionImpl.Destroy`: calls `Storage.Delete(s.data.ID)` (response
`deleteResult`, `none` = nil); on success replaces attributes and flashes
with fresh empty maps and clears the dirty flag, on failure returns the
wrapped error leaving the record untouched. -/
def sessionImpl.Destroy (s : sessionImpl) (deleteResult : Option GoError) :
    DestroyOutcome :=
  match deleteResult with
  | some e =>
      ⟨some (.wrapped "failed to destroy session" e), s, some s.data.ID⟩
  | none =>
      ⟨none, ⟨{ s.data with Attributes := some [], FlashData := some [] }, false⟩,
        some s.data.ID⟩

instance {e a : Type} [DecidableEq e] [DecidableEq a] : DecidableEq (Except e a)
  | .error x, .error y =>
      if h : x = y then isTrue (by rw [h])
      else isFalse (by intro hh; injection hh; exact h ‹_›)
  | .error _, .ok _ => isFalse (by intro hh; exact Except.noConfusion hh)
  | .ok _, .error _ => isFalse (by intro hh; exact Except.noConfusion hh)
  | .ok x, .ok y =>
      if h : x = y then isTrue (by rw [h])
      else isFalse (by intro hh; injection hh; exact h ‹_›)

/-- Outcome of `ManagerImpl.GetSession`: the returned session or error,
and the key of the `Storage.Delete` call made by the expiry-reclamation
branch (`session.Destroy`), if that branch ran. -/
structure GetOutcome where
  result : Except GoError sessionImpl
  deleteCall : Option String
deriving DecidableEq

/-- The decrypt-if-enabled step of `GetSession`:
`if len(EncryptionKey) > 0 { data, err = decrypt(data); if err != nil { return nil, ErrDecryptionFailed } }`. -/
def ManagerImpl.decryptStep (m : ManagerImpl) (data : Blob) : Except GoError Blob :=
  if m.options.EncryptionKey.length > 0 then
    match m.decrypt data with
    | some d => .ok d
    | none => .error .errDecryptionFailed
  else .ok data

/-- `ManagerImpl.GetSession`. `cookie` is the request's session cookie
(`none` = `r.Cookie` failed because the cookie is absent); `storageGet`
is the response of `storage.Get(ctx, sessionID)`, where Go's
`(nil, nil)` return is `.ok none`; `now` is the current instant. -/
def ManagerImpl.GetSession (m : ManagerImpl) (cookie : Option String)
    (storageGet : Except GoError (Option Blob)) (now : Int) : GetOutcome :=
  match cookie with
  | none => ⟨.error .errSessionNotFound, none⟩
  | some sessionID =>
      if sessionID = "" then ⟨.error .errSessionNotFound, none⟩
      else
        match storageGet with
        | .error e => ⟨.error e, none⟩
        | .ok none => ⟨.error .errSessionNotFound, none⟩
        | .ok (some data0) =>
            match m.decryptStep data0 with
            | .error e => ⟨.error e, none⟩
            | .ok data =>
                match data.unmarshalSD with
                | none => ⟨.error .errInvalidSession, none⟩
                | some sessionData =>
                    let session : sessionImpl := ⟨sessionData, false⟩
                    if (session.IsExpired now m.options.MaxAge).1
                        || (session.isIdleExpired now m.options.IdleTimeout).1 then
                      ⟨.error .errSessionNotFound, some sessionData.ID⟩
                    else
                      ⟨.ok (session.Touch now), none⟩

/-- `ManagerImpl.NewSession`: builds a fresh record (empty maps, both
timestamps `now`, dirty) under the generated `sessionID`, issues the
cookie (an HTTP effect outside this model) and saves it; a save failure
is returned as the call's error. -/
def ManagerImpl.NewSession (m : ManagerImpl) (sessionID : String) (now : Int)
    (setResult : Option GoError) : Except GoError sessionImpl :=
  let session : sessionImpl := ⟨⟨sessionID, some [], some [], now, now⟩, true⟩
  let saved := session.Save m setResult
  match saved.err with
  | some e => .error e
  | none => .ok saved.record

/-- One entry of the in-memory backend (`memorySession`). -/
structure MemorySession where
  data : Blob
  expiresAt : Int
deriving DecidableEq

/-- The in-memory backend `MemoryStorage`: a guarded key→entry map. -/
structure MemoryStorage where
  sessions : List (String × MemorySession)
deriving DecidableEq

/-- `MemoryStorage.Get` at instant `now`: absent entries and entries with
`now.After(expiresAt)` yield `nil` (the latter are opportunistically
evicted); otherwise the stored blob is returned. The Go method's error
result is always nil and is omitted. -/
def MemoryStorage.Get (ms : MemoryStorage) (sessionID : String) (now : Int) :
    Option Blob × MemoryStorage :=
  match alookup ms.sessions sessionID with
  | none => (none, ms)
  | some s =>
      if now > s.expiresAt then (none, ⟨aerase ms.sessions sessionID⟩)
      else (some s.data, ms)

/-- `MemoryStorage.Set`: upserts the entry with expiry `now + expiration`. -/
def MemoryStorage.Set (ms : MemoryStorage) (sessionID : String) (data : Blob)
    (expiration now : Int) : MemoryStorage :=
  ⟨upsert ms.sessions sessionID ⟨data, now + expiration⟩⟩

/-- `MemoryStorage.Delete`: removes the entry; its error is always nil. -/
def MemoryStorage.Delete (ms : MemoryStorage) (sessionID : String) : MemoryStorage :=
  ⟨aerase ms.sessions sessionID⟩

/-- `MemoryStorage.Exists` at instant `now`: the entry is present and
`time.Now().Before(expiresAt)`. -/
def MemoryStorage.Exists (ms : MemoryStorage) (sessionID : String) (now : Int) :
    Bool :=
  match alookup ms.sessions sessionID with
  | none => false
  | some s => decide (now < s.expiresAt)

/-- The flash queue a record currently holds for a (normalized) category:
empty when the flash map is nil or the category is absent. -/
def pendingFlashes (s : sessionImpl) (cat : String) : List GoVal :=
  match s.data.FlashData with
  | none => []
  | some fd => (alookup fd cat).getD []

/-- Session records reachable through the manager, indexed by the current
instant: a record is reachable at `t` if it was produced by `NewSession`,
by any chain of record operations, or by `GetSession` rehydrating a blob
that `Save` wrote for a reachable record (stated for a manager without
encryption; with a key configured the same bytes flow through
decrypt∘encrypt). The clock never runs backwards (`advance`). -/
inductive Reachable : Int → sessionImpl → Prop where
  | newSession (m : ManagerImpl) (sessionID : String) (t : Int)
      (r : Option GoError) {s : sessionImpl} :
      m.NewSession sessionID t r = .ok s → Reachable t s
  | advance {t t2 : Int} {s : sessionImpl} :
      Reachable t s → t ≤ t2 → Reachable t2 s
  | set {t : Int} {s s2 : sessionImpl} (key : String) (value : GoVal) :
      Reachable t s → s.Set key value = some s2 → Reachable t s2
  | del {t : Int} {s : sessionImpl} (key : String) :
      Reachable t s → Reachable t (s.Delete key)
  | clear {t : Int} {s : sessionImpl} :
      Reachable t s → Reachable t s.Clear
  | addFlash {t : Int} {s : sessionImpl} (message : GoVal) (category : List String) :
      Reachable t s → Reachable t (s.AddFlash message category)
  | getFlashes {t : Int} {s : sessionImpl} (category : List String) :
      Reachable t s → Reachable t (s.GetFlashes category).2
  | touch {t : Int} {s : sessionImpl} :
      Reachable t s → Reachable t (s.Touch t)
  | save {t : Int} {s : sessionImpl} (m : ManagerImpl) (r : Option GoError) :
      Reachable t s → Reachable t (s.Save m r).record
  | destroy {t : Int} {s : sessionImpl} (r : Option GoError) :
      Reachable t s → Reachable t (s.Destroy r).record
  | rehydrate {t t2 : Int} {s s2 : sessionImpl} (m : ManagerImpl) :
      Reachable t s → t ≤ t2 → m.options.EncryptionKey = [] →
      (m.GetSession (some s.data.ID) (.ok (some (.plain s.data.marshal))) t2).result
        = .ok s2 →
      Reachable t2 s2

/-- Fixture: a manager with no encryption key configured. -/
def mgrPlain : ManagerImpl := ⟨⟨10, 10, []⟩, fun b => some b, fun b => some b⟩

/-- Fixture: a manager with a key configured whose cipher oracles fail. -/
def mgrEnc : ManagerImpl := ⟨⟨10, 10, [1, 2, 3]⟩, fun _ => none, fun _ => none⟩

/-- Fixture: a small session payload in JSON-decoded normal form. -/
def sampleData : SessionData := ⟨"sid", some [], some [], 0, 0⟩

/-- Fixture: a dirty record holding `sampleData`. -/
def sampleRec : sessionImpl := ⟨sampleData, true⟩

/-- Fixture: a clean record whose flash map is nil (as produced by
rehydrating a stored payload with no `flash_data` field). -/
def flashlessRec : sessionImpl := ⟨⟨"sid", some [], none, 0, 0⟩, false⟩

/-- Fixture: a record that already holds a pending default-category flash. -/
def staleFlashRec : sessionImpl :=
  ⟨⟨"sid", some [], some [("default", [.gStr "old"])], 0, 0⟩, false⟩

/-- Fixture: a payload with an integer-typed attribute value. -/
def intAttrData : SessionData := ⟨"s", some [("count", .gInt 42)], some [], 5, 6⟩

/-- Fixture: a memory store holding one entry that expires at instant 5. -/
def boundaryStore : MemoryStorage := ⟨[("a", ⟨.raw [], 5⟩)]⟩

mutual
theorem deserialize_serializeGo :
    ∀ v : GoVal, deserializeGo (serializeGo v) = normalizeGo v
  | .gNull => rfl
  | .gBool _ => rfl
  | .gInt _ => rfl
  | .gFloat _ => rfl
  | .gStr _ => rfl
  | .gArr xs => by
      simp only [serializeGo, deserializeGo, normalizeGo]
      exact congrArg GoVal.gArr (deserialize_serializeGoList xs)
  | .gMap kvs => by
      simp only [serializeGo, deserializeGo, normalizeGo]
      exact congrArg GoVal.gMap (deserialize_serializeGoMap kvs)
theorem deserialize_serializeGoList :
    ∀ xs : GoList, deserializeGoList (serializeGoList xs) = normalizeGoList xs
  | .nil => rfl
  | .cons v tl => by
      simp only [serializeGoList, deserializeGoList, normalizeGoList]
      exact congrArg₂ GoList.cons (deserialize_serializeGo v)
        (deserialize_serializeGoList tl)
theorem deserialize_serializeGoMap :
    ∀ kvs : GoMap, deserializeGoMap (serializeGoMap kvs) = normalizeGoMap kvs
  | .nil => rfl
  | .cons k v tl => by
      simp only [serializeGoMap, deserializeGoMap, normalizeGoMap]
      exact congrArg₂ (GoMap.cons k) (deserialize_serializeGo v)
        (deserialize_serializeGoMap tl)
end

theorem alookup_upsert_same {α : Type} (l : List (String × α)) (key : String) (v : α) :
    alookup (upsert l key v) key = some v := by
  induction l with
  | nil => simp [alookup, upsert]
  | cons hd tl ih =>
      obtain ⟨k, w⟩ := hd
      by_cases h : k = key <;> simp [alookup, upsert, h, ih]

theorem alookup_upsert_other {α : Type} (l : List (String × α)) (key key2 : String)
    (v : α) (h : key2 ≠ key) : alookup (upsert l key v) key2 = alookup l key2 := by
  induction l with
  | nil => simp [alookup, upsert, Ne.symm h]
  | cons hd tl ih =>
      obtain ⟨k, w⟩ := hd
      by_cases hk : k = key
      · simp [alookup, upsert, hk, Ne.symm h]
      · simp only [upsert, if_neg hk, alookup]
        by_cases hk2 : k = key2 <;> simp [hk2, ih]

theorem alookup_aerase_same {α : Type} (l : List (String × α)) (key : String) :
    alookup (aerase l key) key = none := by
  induction l with
  | nil => simp [alookup, aerase]
  | cons hd tl ih =>
      obtain ⟨k, w⟩ := hd
      by_cases h : k = key <;> simp [alookup, aerase, h, ih]

theorem alookup_aerase_other {α : Type} (l : List (String × α)) (key key2 : String)
    (h : key2 ≠ key) : alookup (aerase l key) key2 = alookup l key2 := by
  induction l with
  | nil => simp [aerase]
  | cons hd tl ih =>
      obtain ⟨k, w⟩ := hd
      by_cases hk : k = key
      · simp [alookup, aerase, hk, Ne.symm h, ih]
      · simp only [aerase, if_neg hk, alookup]
        by_cases hk2 : k = key2 <;> simp [hk2, ih]

theorem decodeVals_serializeVals (xs : List GoVal) :
    decodeVals (serializeVals xs) = xs.map normalizeGo := by
  induction xs with
  | nil => rfl
  | cons v tl ih =>
      simp [serializeVals, decodeVals, ih, deserialize_serializeGo]

theorem jsonToGoAttrs_goAttrsToJson (kvs : List (String × GoVal)) :
    jsonToGoAttrs (goAttrsToJson kvs) = normalizeAttrs kvs := by
  induction kvs with
  | nil => rfl
  | cons kv tl ih =>
      obtain ⟨k, v⟩ := kv
      simp [goAttrsToJson, jsonToGoAttrs, normalizeAttrs, ih,
        deserialize_serializeGo]

theorem jsonToGoFlash_goFlashToJson (fd : List (String × List GoVal)) :
    jsonToGoFlash (goFlashToJson fd) = some (normalizeFlash fd) := by
  induction fd with
  | nil => rfl
  | cons kv tl ih =>
      obtain ⟨k, xs⟩ := kv
      simp [goFlashToJson, jsonToGoFlash, decodeFlashVal, ih, normalizeFlash,
        decodeVals_serializeVals]

theorem unmarshal_marshal (d : SessionData) :
    SessionData.unmarshal d.marshal = some d.normalize := by
  obtain ⟨id, attrs, flash, createdAt, lastAccess⟩ := d
  cases attrs <;> cases flash <;>
    simp [SessionData.marshal, SessionData.unmarshal, SessionData.normalize,
      attrsJson, flashJson, JObj.lookupLast, decodeStringField,
      decodeAttrsField, decodeFlashField, decodeTimeField,
      jsonToGoAttrs_goAttrsToJson, jsonToGoFlash_goFlashToJson]

theorem Save_record_data (s : sessionImpl) (m : ManagerImpl) (r : Option GoError) :
    (s.Save m r).record.data = s.data := by
  unfold sessionImpl.Save
  cases hE : m.encryptStep (Blob.plain s.data.marshal) <;>
    cases r <;> cases hd : s.dirty <;> simp [hE, hd]

theorem Destroy_record_timestamps (s : sessionImpl) (r : Option GoError) :
    (s.Destroy r).record.data.CreatedAt = s.data.CreatedAt
      ∧ (s.Destroy r).record.data.LastAccess = s.data.LastAccess := by
  cases r <;> simp [sessionImpl.Destroy]

theorem GetFlashes_record_timestamps (s : sessionImpl) (category : List String) :
    (s.GetFlashes category).2.data.CreatedAt = s.data.CreatedAt
      ∧ (s.GetFlashes category).2.data.LastAccess = s.data.LastAccess := by
  cases h : s.data.FlashData <;> simp [sessionImpl.GetFlashes, h]

theorem Set_data_timestamps {s s2 : sessionImpl} {key : String} {value : GoVal}
    (h : s.Set key value = some s2) :
    s2.data.CreatedAt = s.data.CreatedAt ∧ s2.data.LastAccess = s.data.LastAccess := by
  unfold sessionImpl.Set at h
  cases hA : s.data.Attributes with
  | none => rw [hA] at h; cases h
  | some kvs =>
      rw [hA] at h
      injection h with h2
      subst h2
      exact ⟨rfl, rfl⟩

theorem decryptStep_no_key {m : ManagerImpl} (hkey : m.options.EncryptionKey = [])
    (b : Blob) : m.decryptStep b = .ok b := by
  simp [ManagerImpl.decryptStep, hkey]

theorem rehydrate_fields {m : ManagerImpl} {s s2 : sessionImpl} {t2 : Int}
    (hkey : m.options.EncryptionKey = [])
    (h : (m.GetSession (some s.data.ID) (.ok (some (.plain s.data.marshal))) t2).result
      = .ok s2) :
    s2.data.CreatedAt = s.data.CreatedAt ∧ s2.data.LastAccess = t2 := by
  unfold ManagerImpl.GetSession at h
  by_cases hid : s.data.ID = ""
  · simp [hid] at h
  · simp only [hid, if_neg, ite_false] at h
    rw [decryptStep_no_key hkey] at h
    simp only [Blob.unmarshalSD, unmarshal_marshal] at h
    split at h
    · simp at h
    · simp only [GetOutcome.mk.injEq] at h
      injection h with h2
      subst h2
      exact ⟨rfl, rfl⟩

theorem NewSession_ok {m : ManagerImpl} {sid : String} {t : Int}
    {r : Option GoError} {s : sessionImpl} (h : m.NewSession sid t r = .ok s) :
    s.data = ⟨sid, some [], some [], t, t⟩ := by
  unfold ManagerImpl.NewSession at h
  cases hE : (sessionImpl.Save ⟨⟨sid, some [], some [], t, t⟩, true⟩ m r).err with
  | some e =>
      simp only [hE] at h
      exact Except.noConfusion h
  | none =>
      simp only [hE] at h
      injection h with h2
      rw [← h2, Save_record_data]

theorem Reachable.createdAt_le {t : Int} {s : sessionImpl} (h : Reachable t s) :
    s.data.CreatedAt ≤ s.data.LastAccess ∧ s.data.LastAccess ≤ t := by
  induction h with
  | newSession m sid t r hnew =>
      rw [NewSession_ok hnew]
      exact ⟨le_refl _, le_refl _⟩
  | advance h1 hle ih => exact ⟨ih.1, le_trans ih.2 hle⟩
  | set key value h1 heq ih =>
      obtain ⟨h2, h3⟩ := Set_data_timestamps heq
      rw [h2, h3]; exact ih
  | del key h1 ih => exact ih
  | clear h1 ih => exact ih
  | addFlash message category h1 ih => exact ih
  | getFlashes category h1 ih =>
      obtain ⟨h2, h3⟩ := GetFlashes_record_timestamps _ category
      rw [h2, h3]; exact ih
  | touch h1 ih => exact ⟨le_trans ih.1 ih.2, le_refl _⟩
  | save m r h1 ih => rw [Save_record_data]; exact ih
  | destroy r h1 ih =>
      obtain ⟨h2, h3⟩ := Destroy_record_timestamps _ r
      rw [h2, h3]; exact ih
  | rehydrate m h1 hle hkey hres ih =>
      obtain ⟨h2, h3⟩ := rehydrate_fields hkey hres
      rw [h2, h3]
      exact ⟨le_trans (le_trans ih.1 ih.2) hle, le_refl _⟩

/-- C1: `Manager.GetSession` returns `ErrSessionNotFound` when the cookie
is absent or empty or storage reports the ID absent, `ErrDecryptionFailed`
when a key is configured and decryption fails, `ErrInvalidSession` when
the (decrypted) blob does not decode as a session payload, and propagates
a `Storage.Get` error unchanged. -/
theorem GetSession_error_taxonomy (m : ManagerImpl) (now : Int) :
    (∀ g, (m.GetSession none g now).result = .error .errSessionNotFound)
    ∧ (∀ g, (m.GetSession (some "") g now).result = .error .errSessionNotFound)
    ∧ (∀ sid, sid ≠ "" →
        (m.GetSession (some sid) (.ok none) now).result = .error .errSessionNotFound)
    ∧ (∀ sid e, sid ≠ "" →
        (m.GetSession (some sid) (.error e) now).result = .error e)
    ∧ (∀ sid b, sid ≠ "" → m.options.EncryptionKey.length > 0 → m.decrypt b = none →
        (m.GetSession (some sid) (.ok (some b)) now).result = .error .errDecryptionFailed)
    ∧ (∀ sid b b2, sid ≠ "" → m.decryptStep b = .ok b2 → b2.unmarshalSD = none →
        (m.GetSession (some sid) (.ok (some b)) now).result = .error .errInvalidSession) := by
  refine ⟨fun g => rfl, fun g => by simp [ManagerImpl.GetSession], ?_, ?_, ?_, ?_⟩
  · intro sid hsid
    simp [ManagerImpl.GetSession, hsid]
  · intro sid e hsid
    simp [ManagerImpl.GetSession, hsid]
  · intro sid b hsid hlen hdec
    simp [ManagerImpl.GetSession, ManagerImpl.decryptStep, hsid, hlen, hdec]
  · intro sid b b2 hsid hdec hun
    simp [ManagerImpl.GetSession, hsid, hdec, hun]

theorem GetSession_error_taxonomy_witness :
    ((mgrPlain.GetSession (some "sid") (.ok none) 7).result
      = .error .errSessionNotFound)
    ∧ ((mgrPlain.GetSession (some "sid") (.error (.backend "down")) 7).result
      = .error (.backend "down"))
    ∧ ((mgrEnc.GetSession (some "sid") (.ok (some (.raw [0]))) 7).result
      = .error .errDecryptionFailed)
    ∧ ((mgrPlain.GetSession (some "sid") (.ok (some (.raw [0]))) 7).result
      = .error .errInvalidSession) :=
  ⟨(GetSession_error_taxonomy mgrPlain 7).2.2.1 "sid" (by decide),
    (GetSession_error_taxonomy mgrPlain 7).2.2.2.1 "sid" (.backend "down") (by decide),
    (GetSession_error_taxonomy mgrEnc 7).2.2.2.2.1 "sid" (.raw [0]) (by decide)
      (by decide) (by rfl),
    (GetSession_error_taxonomy mgrPlain 7).2.2.2.2.2 "sid" (.raw [0]) (.raw [0])
      (by decide) (by rfl) (by rfl)⟩

/-- C2: on a successfully decoded payload, `GetSession` deletes the
storage entry and reports not-found when the absolute age exceeds
`maxAge` or the idle time exceeds `idleTimeout` (either alone suffices);
otherwise it returns the record with `lastAccess` set to the current
instant and the dirty flag set, deleting nothing. -/
theorem GetSession_expiry_policy (m : ManagerImpl) (sid : String) (b b2 : Blob)
    (sd : SessionData) (now : Int) (hsid : sid ≠ "")
    (hdec : m.decryptStep b = .ok b2) (hun : b2.unmarshalSD = some sd) :
    ((now - sd.CreatedAt > m.options.MaxAge ∨ now - sd.LastAccess > m.options.IdleTimeout) →
      m.GetSession (some sid) (.ok (some b)) now
        = ⟨.error .errSessionNotFound, some sd.ID⟩)
    ∧ ((now - sd.CreatedAt ≤ m.options.MaxAge ∧ now - sd.LastAccess ≤ m.options.IdleTimeout) →
      m.GetSession (some sid) (.ok (some b)) now
        = ⟨.ok ⟨{ sd with LastAccess := now }, true⟩, none⟩) := by
  constructor
  · intro hexp
    rcases hexp with h | h <;>
      simp [ManagerImpl.GetSession, hsid, hdec, hun, sessionImpl.IsExpired,
        sessionImpl.isIdleExpired, sessionImpl.Touch, h]
  · intro ⟨h1, h2⟩
    simp [ManagerImpl.GetSession, hsid, hdec, hun, sessionImpl.IsExpired,
      sessionImpl.isIdleExpired, sessionImpl.Touch, not_lt.mpr h1, not_lt.mpr h2]

theorem GetSession_expiry_policy_witness :
    (mgrPlain.GetSession (some "sid") (.ok (some (.plain sampleData.marshal))) 11
      = ⟨.error .errSessionNotFound, some "sid"⟩)
    ∧ (mgrPlain.GetSession (some "sid") (.ok (some (.plain sampleData.marshal))) 7
      = ⟨.ok ⟨{ sampleData with LastAccess := 7 }, true⟩, none⟩) :=
  ⟨(GetSession_expiry_policy mgrPlain "sid" (.plain sampleData.marshal)
      (.plain sampleData.marshal) sampleData.normalize 11 (by decide) (by rfl)
      (by rfl)).1 (by decide),
    (GetSession_expiry_policy mgrPlain "sid" (.plain sampleData.marshal)
      (.plain sampleData.marshal) sampleData.normalize 7 (by decide) (by rfl)
      (by rfl)).2 (by decide)⟩

/-- C3: `Save` is a successful no-op (no `Storage.Set` call) when the
record is not dirty; when dirty it marshals (encrypting when a key is
configured), calls `Storage.Set` with the record's ID and the configured
`MaxAge` as TTL, and clears the dirty flag on success; when `Storage.Set`
fails it returns the wrapped storage error and leaves the record — in
particular its dirty flag — unchanged. -/
theorem Save_contract (s : sessionImpl) (m : ManagerImpl) :
    (∀ r, s.dirty = false → s.Save m r = ⟨none, s, none⟩)
    ∧ (∀ b2, s.dirty = true → m.encryptStep (.plain s.data.marshal) = .ok b2 →
        (s.Save m none
            = ⟨none, { s with dirty := false }, some (s.data.ID, b2, m.options.MaxAge)⟩
          ∧ ∀ e, s.Save m (some e)
            = ⟨some (.wrapped "failed to save session" e), s,
                some (s.data.ID, b2, m.options.MaxAge)⟩)) := by
  constructor
  · intro r hd
    simp [sessionImpl.Save, hd]
  · intro b2 hd hE
    constructor
    · simp [sessionImpl.Save, hd, hE]
    · intro e
      simp [sessionImpl.Save, hd, hE]

theorem Save_contract_witness :
    (sessionImpl.Save ⟨sampleData, false⟩ mgrPlain (some (.backend "down"))
      = ⟨none, ⟨sampleData, false⟩, none⟩)
    ∧ (sampleRec.Save mgrPlain none
      = ⟨none, { sampleRec with dirty := false },
          some ("sid", .plain sampleData.marshal, 10)⟩)
    ∧ (sampleRec.Save mgrPlain (some (.backend "down"))
      = ⟨some (.wrapped "failed to save session" (.backend "down")), sampleRec,
          some ("sid", .plain sampleData.marshal, 10)⟩) :=
  ⟨(Save_contract ⟨sampleData, false⟩ mgrPlain).1 (some (.backend "down")) (by decide),
    ((Save_contract sampleRec mgrPlain).2 (.plain sampleData.marshal) (by decide)
      (by rfl)).1,
    ((Save_contract sampleRec mgrPlain).2 (.plain sampleData.marshal) (by decide)
      (by rfl)).2 (.backend "down")⟩

/-- C4: `Destroy` calls `Storage.Delete` with the record's ID; on success
attributes and flashes are emptied and the dirty flag cleared; on storage
failure it returns the wrapped error and the record is exactly as before
the call. -/
theorem Destroy_contract (s : sessionImpl) :
    (s.Destroy none
      = ⟨none, ⟨{ s.data with Attributes := some [], FlashData := some [] }, false⟩,
          some s.data.ID⟩)
    ∧ (∀ e, s.Destroy (some e)
      = ⟨some (.wrapped "failed to destroy session" e), s, some s.data.ID⟩) :=
  ⟨rfl, fun _ => rfl⟩

/-- C5 (amended): deserializing the bytes produced by serializing a
session payload yields the payload's JSON-decoded normal form — every
attribute and flash value of integer type comes back as the corresponding
`float64` — so `Deserialize(Serialize(x)) == x` holds exactly when `x` is
already in that normal form. -/
theorem SessionData_roundtrip (x : SessionData) :
    SessionData.unmarshal x.marshal = some x.normalize
    ∧ (x.normalize = x → SessionData.unmarshal x.marshal = some x) :=
  ⟨unmarshal_marshal x, fun h => by rw [unmarshal_marshal x, h]⟩

theorem SessionData_roundtrip_witness :
    SessionData.unmarshal sampleData.marshal = some sampleData :=
  (SessionData_roundtrip sampleData).2 (by decide)

theorem SessionData_roundtrip_counterexample :
    SessionData.unmarshal intAttrData.marshal ≠ some intAttrData := by decide

/-- C6 (amended): `GetFlashes` marks the record dirty whenever the flash
map is non-nil, even when the requested category is absent or empty; when
the flash map is nil it returns an empty sequence and leaves the record —
in particular the dirty flag — entirely unchanged. -/
theorem GetFlashes_dirty (s : sessionImpl) (category : List String) :
    (s.data.FlashData ≠ none → ((s.GetFlashes category).2).dirty = true)
    ∧ (s.data.FlashData = none → s.GetFlashes category = ([], s)) := by
  cases h : s.data.FlashData <;> simp [sessionImpl.GetFlashes, h]

theorem GetFlashes_dirty_witness :
    ((staleFlashRec.GetFlashes ["missing"]).2).dirty = true :=
  (GetFlashes_dirty staleFlashRec ["missing"]).1 (by decide)

theorem GetFlashes_dirty_counterexample :
    ¬ (((flashlessRec.GetFlashes []).2).dirty = true) := by decide

/-- C7 (amended): on a record whose queue for (the normalization of)
category `c` is empty or absent, `AddFlash(m, c)` followed by
`GetFlashes(c)` yields exactly `[m]` and removes the queue; on any record
with an empty pending queue for `c`, `GetFlashes(c)` returns the empty
sequence and keeps the queue empty (so every subsequent call stays
empty); and the drain leaves every other category's queue unchanged. -/
theorem flash_drain (s : sessionImpl) (message : GoVal) (category : List String)
    (h : pendingFlashes s (normCat category) = []) :
    (((s.AddFlash message category).GetFlashes category).1 = [message])
    ∧ (pendingFlashes ((s.AddFlash message category).GetFlashes category).2
        (normCat category) = [])
    ∧ (∀ s2 : sessionImpl, pendingFlashes s2 (normCat category) = [] →
        ((s2.GetFlashes category).1 = []
          ∧ pendingFlashes (s2.GetFlashes category).2 (normCat category) = []))
    ∧ (∀ cat2, cat2 ≠ normCat category →
        pendingFlashes ((s.AddFlash message category).GetFlashes category).2 cat2
          = pendingFlashes (s.AddFlash message category) cat2) := by
  have hq : (alookup (s.data.FlashData.getD []) (normCat category)).getD [] = [] := by
    cases hF : s.data.FlashData with
    | none => simp [alookup]
    | some fd => simpa [pendingFlashes, hF] using h
  refine ⟨?_, ?_, ?_, ?_⟩
  · simp [sessionImpl.AddFlash, sessionImpl.GetFlashes, hq, alookup_upsert_same]
  · simp [sessionImpl.AddFlash, sessionImpl.GetFlashes, pendingFlashes,
      alookup_aerase_same]
  · intro s2 h2
    cases hF2 : s2.data.FlashData with
    | none => simp [sessionImpl.GetFlashes, pendingFlashes, hF2]
    | some fd2 =>
        constructor
        · simpa [sessionImpl.GetFlashes, hF2, pendingFlashes] using h2
        · simp [sessionImpl.GetFlashes, hF2, pendingFlashes, alookup_aerase_same]
  · intro cat2 hne
    simp [sessionImpl.AddFlash, sessionImpl.GetFlashes, pendingFlashes,
      alookup_aerase_other _ _ _ hne]

theorem flash_drain_witness :
    ((sampleRec.AddFlash (.gStr "hi") ["error"]).GetFlashes ["error"]).1
      = [.gStr "hi"] :=
  (flash_drain sampleRec (.gStr "hi") ["error"] (by decide)).1

theorem flash_drain_counterexample :
    ((staleFlashRec.AddFlash (.gStr "new") []).GetFlashes []).1
      ≠ [.gStr "new"] := by decide

/-- C8: every session record reachable through the manager — freshly
created, rehydrated from a stored blob by `GetSession`, or obtained after
any sequence of record operations — satisfies `createdAt ≤ lastAccess`. -/
theorem reachable_createdAt_le_lastAccess {t : Int} {s : sessionImpl}
    (h : Reachable t s) : s.data.CreatedAt ≤ s.data.LastAccess :=
  (Reachable.createdAt_le h).1

theorem reachable_createdAt_le_lastAccess_witness :
    (sessionImpl.mk ⟨"a", some [], some [], 0, 0⟩ false).data.CreatedAt
      ≤ (sessionImpl.mk ⟨"a", some [], some [], 0, 0⟩ false).data.LastAccess :=
  reachable_createdAt_le_lastAccess
    (Reachable.newSession mgrPlain "a" 0 none (by rfl))

/-- C9 (amended): `MemoryStorage.Exists` and `MemoryStorage.Get`,
evaluated at the same instant, agree on whether an entry is live at every
instant other than the entry's exact expiry instant; at `now = expiresAt`
`Get` still returns the blob (it treats an entry as expired only strictly
after `expiresAt`) while `Exists` already reports false (it requires
`now` strictly before `expiresAt`). -/
theorem Exists_agrees_Get (ms : MemoryStorage) (sessionID : String) (now : Int)
    (h : ∀ e, alookup ms.sessions sessionID = some e → now ≠ e.expiresAt) :
    (MemoryStorage.Exists ms sessionID now = true)
      ↔ ((ms.Get sessionID now).1).isSome = true := by
  cases hL : alookup ms.sessions sessionID with
  | none => simp [MemoryStorage.Exists, MemoryStorage.Get, hL]
  | some e =>
      rcases lt_or_gt_of_ne (h e hL) with h1 | h1
      · simp [MemoryStorage.Exists, MemoryStorage.Get, hL, h1,
          not_lt.mpr (le_of_lt h1)]
      · simp [MemoryStorage.Exists, MemoryStorage.Get, hL, h1,
          not_lt.mpr (le_of_lt h1)]

theorem Exists_agrees_Get_witness :
    (MemoryStorage.Exists boundaryStore "a" 4 = true)
      ↔ ((boundaryStore.Get "a" 4).1).isSome = true :=
  Exists_agrees_Get boundaryStore "a" 4 (fun e he => by
    simp [boundaryStore, alookup] at he
    subst he
    decide)

theorem Exists_agrees_Get_counterexample :
    ¬ ((MemoryStorage.Exists boundaryStore "a" 5 = true)
      ↔ ((boundaryStore.Get "a" 5).1).isSome = true) := by decide

/-- C10: the read-only operations `ID`, `Get`, `LastAccess`, `CreatedAt`
and `IsExpired` leave the session record — attributes, flash queues,
timestamps and dirty flag — exactly as it was. -/
theorem readonly_frame (s : sessionImpl) (key : String) (now maxAge : Int) :
    (s.ID).2 = s ∧ (s.Get key).2 = s ∧ (s.LastAccess).2 = s ∧ (s.CreatedAt).2 = s
      ∧ (s.IsExpired now maxAge).2 = s := by
  refine ⟨rfl, ?_, rfl, rfl, rfl⟩
  unfold sessionImpl.Get
  rcases hA : s.data.Attributes with _ | kvs
  · rfl
  · rcases hL : alookup kvs key with _ | v <;> simp [hL]
